import Mathlib

/-!
Shallow embedding of the DocParser post-processing core (`src/main.js`):
detection normalization and confidence filtering (`processPage`), reading-order
sequencing (the comparator-based sort and `reading_order` assignment),
stack-based hierarchy construction (`buildDocumentHierarchy`), and the
multi-view export assembly (`saveBoundingBoxesToJson`).

Modelling conventions:
* JavaScript numbers are modelled as exact rationals (`ℚ`); pixel boxes after
  `Math.round` are integers (`ℤ`).
* `Math.round x` is `⌊x + 1/2⌋` (round half toward +∞), matching JS semantics.
* `Number.prototype.toFixed(k)` followed by `parseFloat` is modelled as
  rounding to k decimal places with ties toward +∞ (the same tie rule).
* `Array.prototype.sort` (required stable since ES2019) is modelled by a
  stable insertion sort parameterized by the JS comparator: an element is
  inserted before the first element it compares strictly less than.
* `String.prototype.toLowerCase` and single-character `replace` (which in JS
  replaces only the first occurrence) are modelled structurally on the
  character list.
* File paths, timing fields and image I/O are external collaborators and are
  omitted; they carry no detection data.
-/

namespace DocParser

/-- JS `Math.round`: round half toward positive infinity. -/
def jsRound (q : ℚ) : Int := ⌊q + 1/2⌋

/-- `parseFloat(x.toFixed(4))`: round to 4 decimal places, ties toward +∞. -/
def round4 (q : ℚ) : ℚ := (jsRound (q * 10000) : ℚ) / 10000

/-- `parseFloat(x.toFixed(3))`: round to 3 decimal places, ties toward +∞. -/
def round3 (q : ℚ) : ℚ := (jsRound (q * 1000) : ℚ) / 1000

/-- `const CONFIDENCE_THRESHOLD = 0.50` (main.js line 50). -/
def CONFIDENCE_THRESHOLD : ℚ := 1/2

/-- The static `id2label` table (main.js lines 59-71); unknown ids map to
`"Unknown"` (line 388: `id2label[id] || "Unknown"`). -/
def id2label (i : Nat) : String :=
  match i with
  | 0 => "Caption"
  | 1 => "Footnote"
  | 2 => "Formula"
  | 3 => "List-item"
  | 4 => "Page-footer"
  | 5 => "Page-header"
  | 6 => "Picture"
  | 7 => "Section-header"
  | 8 => "Table"
  | 9 => "Text"
  | 10 => "Title"
  | _ => "Unknown"

/-- A pixel-space box `[xmin, ymin, xmax, ymax]` (the JS `bbox` array,
indices 0..3 become fields x0 y0 x1 y1). -/
structure Box where
  x0 : Int
  y0 : Int
  x1 : Int
  y1 : Int
deriving DecidableEq, Repr

/-- A normalized box (the JS `bbox_normalized` array, indices 0..3). -/
structure BoxN where
  x0 : ℚ
  y0 : ℚ
  x1 : ℚ
  y1 : ℚ
deriving DecidableEq, Repr

/-- One raw prediction tuple `[xmin, ymin, xmax, ymax, score, id]` from the
external detector (main.js line 378), together with the string the external
OCR collaborator returns for the resulting region (`extractTextWithRetry`,
an external call whose result is stored verbatim at line 412). -/
structure RawPred where
  xmin : ℚ
  ymin : ℚ
  xmax : ℚ
  ymax : ℚ
  score : ℚ
  classId : Nat
  text : String
deriving DecidableEq, Repr

/-- The canonical detection record built at main.js lines 394-413.
`reading_order` is `undefined` in JS until the sequencer assigns it
(line 429); we model the unassigned state as 0. -/
structure Detection where
  id : String
  bbox : Box
  bbox_normalized : BoxN
  label : String
  confidence : ℚ
  area : Int
  center : Int × Int
  width : Int
  height : Int
  extractedText : String
  reading_order : Nat
deriving DecidableEq, Repr

/-- Build one detection record (main.js lines 381-413): scale + round the
box, normalize by page dimensions with 4-decimal rounding, resolve the
label, round the score to 3 decimals, derive area/center/width/height.
`idx` is `detections.length` at push time, so the id uses `idx + 1`. -/
def mkDetection (page : Nat) (W H sx sy : ℚ) (idx : Nat) (t : RawPred) : Detection :=
  let b : Box := ⟨jsRound (t.xmin * sx), jsRound (t.ymin * sy),
                  jsRound (t.xmax * sx), jsRound (t.ymax * sy)⟩
  { id := "page" ++ toString page ++ "_detection" ++ toString (idx + 1)
    bbox := b
    bbox_normalized := ⟨round4 ((b.x0 : ℚ) / W), round4 ((b.y0 : ℚ) / H),
                        round4 ((b.x1 : ℚ) / W), round4 ((b.y1 : ℚ) / H)⟩
    label := id2label t.classId
    confidence := round3 t.score
    area := (b.x1 - b.x0) * (b.y1 - b.y0)
    center := (jsRound (((b.x0 + b.x1 : Int) : ℚ) / 2),
               jsRound (((b.y0 + b.y1 : Int) : ℚ) / 2))
    width := b.x1 - b.x0
    height := b.y1 - b.y0
    extractedText := t.text
    reading_order := 0 }

/-- The detection loop of `processPage` (main.js lines 378-416): skip a
tuple when `score < CONFIDENCE_THRESHOLD`, otherwise push the built
record (whose id index is the current accumulator length). -/
def detectLoop (page : Nat) (W H sx sy : ℚ) (acc : List Detection) :
    List RawPred → List Detection
  | [] => acc
  | t :: rest =>
    if t.score < CONFIDENCE_THRESHOLD then
      detectLoop page W H sx sy acc rest
    else
      detectLoop page W H sx sy (acc ++ [mkDetection page W H sx sy acc.length t]) rest

/-- The reading-order comparator (main.js lines 421-425): if the center-y
difference exceeds 20 in absolute value the rows differ and the comparator
returns `yDiff`; otherwise the two are on one visual row and it returns the
center-x difference. -/
def cmpReading (a b : Detection) : Int :=
  let yDiff := a.center.2 - b.center.2
  if 20 < |yDiff| then yDiff else a.center.1 - b.center.1

/-- Stable insertion: place `x` before the first element it compares
strictly less than.  Building block of the model of `Array.prototype.sort`
(stable per ES2019). -/
def insertCmp (cmp : α → α → Int) (x : α) : List α → List α
  | [] => [x]
  | y :: ys => if cmp x y < 0 then x :: y :: ys else y :: insertCmp cmp x ys

/-- Sort a list with a JS comparator (stable). -/
def jsSortBy (cmp : α → α → Int) (l : List α) : List α :=
  l.foldr (insertCmp cmp) []

/-- Reading-order assignment after the sort (main.js lines 428-430):
`detection.reading_order = index + 1`. -/
def assignReadingOrder (l : List Detection) : List Detection :=
  l.enum.map fun p => { p.2 with reading_order := p.1 + 1 }

/-- The surviving, ordered, reading-order-stamped detections of one page
(`processPage`, main.js lines 378-430). -/
def processPageDetections (page : Nat) (W H sx sy : ℚ) (preds : List RawPred) :
    List Detection :=
  assignReadingOrder (jsSortBy cmpReading (detectLoop page W H sx sy [] preds))

/-- Per-page input to the core: page pixel dimensions, the scale factors
from the detector frame into page space, and the raw prediction tuples. -/
structure PageInput where
  imageWidth : ℚ
  imageHeight : ℚ
  sx : ℚ
  sy : ℚ
  preds : List RawPred
deriving DecidableEq, Repr

/-- The per-page result record returned by `processPage` (main.js lines
444-452); timing and file-path fields are external I/O and omitted. -/
structure PageResult where
  pageNumber : Nat
  detections : List Detection
  imageWidth : ℚ
  imageHeight : ℚ
deriving DecidableEq, Repr

/-- `processPage` for one page. -/
def processPage (page : Nat) (inp : PageInput) : PageResult :=
  { pageNumber := page
    detections := processPageDetections page inp.imageWidth inp.imageHeight inp.sx inp.sy inp.preds
    imageWidth := inp.imageWidth
    imageHeight := inp.imageHeight }

end DocParser

namespace DocParser

/-- The `headingLevels` table of `buildDocumentHierarchy` (main.js lines
661-666): labels that open a heading scope, with their level strings. -/
def headingLevels (label : String) : Option String :=
  match label with
  | "Title" => some "H1"
  | "Section-header" => some "H2"
  | "Page-header" => some "H3"
  | "Caption" => some "H4"
  | _ => none

/-- Numeric heading rank: the code computes `parseInt(level.replace("H", ""))`
(main.js lines 687, 692-694).  Level strings only ever come from
`headingLevels` or the default section's `"H1"`, so the parse is tabulated
over that closed set; any other string parses to no digits (`NaN` in JS,
which compares false against everything — modelled as rank 0, which the
pop condition likewise never fires on). -/
def levelNum (l : String) : Nat :=
  match l with
  | "H1" => 1
  | "H2" => 2
  | "H3" => 3
  | "H4" => 4
  | _ => 0

/-- JS `toLowerCase` on the character list. -/
def jsLower (s : String) : String := String.mk (s.data.map Char.toLower)

/-- JS `replace("-", "_")`: replace only the first occurrence. -/
def replaceDash : List Char → List Char
  | [] => []
  | c :: cs => if c = '-' then '_' :: cs else c :: replaceDash cs

/-- `label.toLowerCase().replace("-", "_")` (main.js line 712). -/
def contentTypeOf (label : String) : String := String.mk (replaceDash (jsLower label).data)

/-- A detection enriched with page context by the Export Assembler
(main.js lines 520-527, an object-spread copy of the detection plus
`pageNumber`/`pageWidth`/`pageHeight`; the two image-path fields are
external file names and omitted). -/
structure EnrichedDetection where
  det : Detection
  pageNumber : Nat
  pageWidth : ℚ
  pageHeight : ℚ
deriving DecidableEq, Repr

/-- Enrichment of one detection with its page's context. -/
def enrich (r : PageResult) (d : Detection) : EnrichedDetection :=
  ⟨d, r.pageNumber, r.imageWidth, r.imageHeight⟩

/-- A node of the document hierarchy (main.js lines 675-684 heading nodes,
710-722 content nodes, 729-735 default sections — the default section
carries fewer fields than a heading node, hence its own constructor). -/
inductive Node where
  | heading (id title level : String) (page : Nat) (bbox : Box)
      (bbox_normalized : BoxN) (confidence : ℚ) (children : List Node)
  | content (id type_ content : String) (bbox : Box) (bbox_normalized : BoxN)
      (page : Nat) (confidence : ℚ) (width height area : Int) (reading_order : Nat)
  | defaultSection (id title level : String) (page : Nat) (children : List Node)
deriving Repr

/-- The `level` field read by the pop loop; content nodes have none (they
are never pushed on the heading stack). -/
def nodeLevel : Node → String
  | .heading _ _ l _ _ _ _ _ => l
  | .content _ _ _ _ _ _ _ _ _ _ _ => ""
  | .defaultSection _ _ l _ _ => l

/-- `children.push(n)` on a stack node (headings and default sections own a
`children` array; a content node has none and is returned unchanged —
content never enters the stack). -/
def pushChild (p n : Node) : Node :=
  match p with
  | .heading i t l pg b bn c ch => .heading i t l pg b bn c (ch ++ [n])
  | .content i ty co b bn pg c w h a ro => .content i ty co b bn pg c w h a ro
  | .defaultSection i t l pg ch => .defaultSection i t l pg (ch ++ [n])

/-- The heading node built at main.js lines 675-684.  `extractedText ||
fallback` uses the fallback only for the empty string (the sole falsy
string value). -/
def mkHeadingNode (e : EnrichedDetection) (level : String) : Node :=
  .heading e.det.id
    (if e.det.extractedText = "" then
       e.det.label ++ " (Page " ++ toString e.pageNumber ++ ")"
     else e.det.extractedText)
    level e.pageNumber e.det.bbox e.det.bbox_normalized e.det.confidence []

/-- The content node built at main.js lines 710-722. -/
def mkContentNode (e : EnrichedDetection) : Node :=
  .content e.det.id (contentTypeOf e.det.label)
    (if e.det.extractedText = "" then
       e.det.label ++ " content (Page " ++ toString e.pageNumber ++ ")"
     else e.det.extractedText)
    e.det.bbox e.det.bbox_normalized e.pageNumber e.det.confidence
    e.det.width e.det.height e.det.area e.det.reading_order

/-- The default section synthesized at main.js lines 729-735 when content
arrives with an empty heading stack. -/
def mkDefaultSection (page : Nat) (c : Node) : Node :=
  .defaultSection ("default_section_page_" ++ toString page)
    ("Content (Page " ++ toString page ++ ")") "H1" page [c]

/-! The JS builder mutates shared node objects: a node is appended to its
parent's `children` (or to the top-level `hierarchy` array) at creation
time and keeps receiving children through the stack alias afterwards.  The
functional embedding defers the attachment: a node lives on the stack while
open and is attached to the node below it (or to the forest when it is the
bottom entry) at the moment it is popped.  Children are only ever appended
to the current stack top, and a node is popped before anything later is
appended to its parent, so attachment order — and hence the final tree —
is identical. -/

/-- Collapse a popped prefix of the stack (top first): each popped node is
appended to the children of the node below it. -/
def collapseStack : Node → List Node → Node
  | t, [] => t
  | t, p :: rest => collapseStack (pushChild p t) rest

/-- The pop loop at main.js lines 690-697: pop while the stack top's level
number is `>= levelNum` (the popped nodes being attached as described
above), leaving the remaining stack and the possibly extended forest. -/
def popWhile (lvl : Nat) (forest stack : List Node) : List Node × List Node :=
  let dropped := stack.takeWhile fun nd => lvl ≤ levelNum (nodeLevel nd)
  let kept := stack.dropWhile fun nd => lvl ≤ levelNum (nodeLevel nd)
  match dropped with
  | [] => (forest, stack)
  | t :: ds =>
    let collapsed := collapseStack t ds
    match kept with
    | [] => (forest ++ [collapsed], [])
    | p :: rs => (forest, pushChild p collapsed :: rs)

/-- End-of-input flush: the stack is discarded in JS, but its nodes were
already attached at creation time; in the deferred model the remaining
open nodes collapse into the bottom entry, which joins the forest. -/
def flushStack (forest : List Node) : List Node → List Node
  | [] => forest
  | t :: rest => forest ++ [collapseStack t rest]

/-- One step of the `sortedDetections.forEach` body (main.js lines
668-740). The state is `(hierarchy, headingStack)` with the stack head
being the most specific open heading. -/
def stepDet (st : List Node × List Node) (e : EnrichedDetection) :
    List Node × List Node :=
  match headingLevels e.det.label with
  | some level =>
    let node := mkHeadingNode e level
    let st2 := popWhile (levelNum level) st.1 st.2
    (st2.1, node :: st2.2)
  | none =>
    let cnode := mkContentNode e
    match st.2 with
    | top :: rest => (st.1, pushChild top cnode :: rest)
    | [] => (st.1, [mkDefaultSection e.pageNumber cnode])

/-- The hierarchy forest built from an already ordered detection sequence
(the body of `buildDocumentHierarchy` after its sort). -/
def buildForestOrdered (dets : List EnrichedDetection) : List Node :=
  let st := dets.foldl stepDet ([], [])
  flushStack st.1 st.2

/-- The cross-page ordering comparator of `buildDocumentHierarchy`
(main.js lines 650-655): by page number, then by reading order. -/
def hierCmp (a b : EnrichedDetection) : Int :=
  if a.pageNumber ≠ b.pageNumber then (a.pageNumber : Int) - (b.pageNumber : Int)
  else (a.det.reading_order : Int) - (b.det.reading_order : Int)

/-- `buildDocumentHierarchy` (main.js lines 646-744).  The JS
`detections.sort(...)` sorts the caller's array in place; the second
component is that post-sort array, which the Export Assembler goes on to
serialize as the flat view. -/
def buildDocumentHierarchy (dets : List EnrichedDetection) :
    List Node × List EnrichedDetection :=
  let sorted := jsSortBy hierCmp dets
  (buildForestOrdered sorted, sorted)

end DocParser

namespace DocParser

/-- A reduced re-processing suggestion record (main.js lines 581-613). -/
structure Suggestion where
  id : String
  pageNumber : Nat
  bbox : Box
  bbox_normalized : BoxN
  priority : String
  processingNote : Option String
deriving DecidableEq, Repr

/-- Build one suggestion record from an enriched detection. -/
def mkSuggestion (priority : String) (note : Option String)
    (e : EnrichedDetection) : Suggestion :=
  ⟨e.det.id, e.pageNumber, e.det.bbox, e.det.bbox_normalized, priority, note⟩

/-- The four priority suggestion lists (main.js lines 580-614). -/
structure OcrSuggestions where
  textElements : List Suggestion
  titleElements : List Suggestion
  tableElements : List Suggestion
  listElements : List Suggestion
deriving DecidableEq, Repr

/-- The `elementsByType` grouping (main.js lines 531-536) restricted to one
label: the code pushes each enriched detection onto its label's bucket in
the same traversal that builds `allDetections`, so a bucket is the
order-preserving filter of the flat list by that label (`|| []` yields the
empty list for an absent label). -/
def elementsByType (label : String) (allDet : List EnrichedDetection) :
    List EnrichedDetection :=
  allDet.filter fun e => e.det.label = label

/-- One record of the per-page view (main.js lines 565-577); each detection
is an object-spread copy additionally stamped with the page number
(lines 573-576), modelled as the pair `(detection, pageNumber)`. -/
structure PagesEntry where
  pageNumber : Nat
  imageWidth : ℚ
  imageHeight : ℚ
  detectionsCount : Nat
  detections : List (Detection × Nat)
deriving DecidableEq, Repr

/-- Build the per-page view record for one page result. -/
def pagesEntry (r : PageResult) : PagesEntry :=
  ⟨r.pageNumber, r.imageWidth, r.imageHeight, r.detections.length,
   r.detections.map fun d => (d, r.pageNumber)⟩

/-- The document-level JSON artifact (main.js lines 543-615); the
`metadata` block holds only aggregates and run timing and is omitted. -/
structure JsonOutput where
  documentStructure : List Node
  allDetections : List EnrichedDetection
  pages : List PagesEntry
  ocrProcessingSuggestions : OcrSuggestions
deriving Repr

/-- The flat enriched list in the order it is pushed (main.js lines
517-537): page results in order, each page's detections in order. -/
def allDetectionsOf (results : List PageResult) : List EnrichedDetection :=
  results.foldr (fun r acc => r.detections.map (enrich r) ++ acc) []

/-- `saveBoundingBoxesToJson` (main.js lines 508-643) restricted to the
data it assembles.  `buildDocumentHierarchy` sorts the `allDetections`
array in place before the object literal is built, so the exported flat
view is the post-sort array (second component of the builder). -/
def saveBoundingBoxesToJson (results : List PageResult) : JsonOutput :=
  let allDet := allDetectionsOf results
  let hier := buildDocumentHierarchy allDet
  { documentStructure := hier.1
    allDetections := hier.2
    pages := results.map pagesEntry
    ocrProcessingSuggestions :=
      { textElements := (elementsByType "Text" allDet).map (mkSuggestion "high" none)
        titleElements := (elementsByType "Title" allDet).map (mkSuggestion "highest" none)
        tableElements := (elementsByType "Table" allDet).map
          (mkSuggestion "high" (some "Use table-specific OCR for better structure recognition"))
        listElements := (elementsByType "List-item" allDet).map (mkSuggestion "medium" none) } }

/-- The page loop of `main` (main.js lines 789-811): page `i` of the PDF is
processed as page number `i + 1`. -/
def runResults (n : Nat) : List PageInput → List PageResult
  | [] => []
  | inp :: rest => processPage n inp :: runResults (n + 1) rest

/-- The full core pipeline for one run. -/
def runPipeline (inputs : List PageInput) : JsonOutput :=
  saveBoundingBoxesToJson (runResults 1 inputs)

/-- Sample enriched content detection used in sanity checks below. -/
def sampleContent (page : Nat) (ro : Nat) (text : String) : EnrichedDetection :=
  { det :=
    { id := "page" ++ toString page ++ "_detection" ++ toString ro
      bbox := ⟨10, 10, 100, 30⟩
      bbox_normalized := ⟨0, 0, 1, 1⟩
      label := "Text"
      confidence := 1
      area := 1800
      center := (55, 20)
      width := 90
      height := 20
      extractedText := text
      reading_order := ro }
    pageNumber := page
    pageWidth := 100
    pageHeight := 100 }

end DocParser

namespace DocParser

/-! ### Helper lemmas about the sequencer -/

lemma enumFrom_assign_ro :
    ∀ (l : List Detection) (n : Nat),
      ((List.enumFrom n l).map fun p =>
        ({ p.2 with reading_order := p.1 + 1 } : Detection)).map
          (fun d => d.reading_order) = List.range' (n + 1) l.length := by
  intro l
  induction l with
  | nil => intro n; rfl
  | cons d rest ih =>
    intro n
    simpa [List.enumFrom, List.range'] using ih (n + 1)

lemma assignReadingOrder_map_ro (l : List Detection) :
    (assignReadingOrder l).map (fun d => d.reading_order) =
      List.range' 1 l.length := by
  simpa [assignReadingOrder, List.enum] using enumFrom_assign_ro l 0

lemma mem_insertCmp {cmp : α → α → Int} {x a : α} :
    ∀ {l : List α}, a ∈ insertCmp cmp x l ↔ a = x ∨ a ∈ l := by
  intro l
  induction l with
  | nil => simp [insertCmp]
  | cons y ys ih =>
    by_cases h : cmp x y < 0
    · simp [insertCmp, h]
    · simp only [insertCmp, if_neg h, List.mem_cons, ih]
      tauto

lemma mem_jsSortBy {cmp : α → α → Int} {a : α} :
    ∀ {l : List α}, a ∈ jsSortBy cmp l ↔ a ∈ l := by
  intro l
  induction l with
  | nil => simp [jsSortBy]
  | cons y ys ih =>
    simp only [jsSortBy, List.foldr] at ih ⊢
    rw [mem_insertCmp]
    simp [ih]

lemma length_insertCmp {cmp : α → α → Int} {x : α} :
    ∀ (l : List α), (insertCmp cmp x l).length = l.length + 1 := by
  intro l
  induction l with
  | nil => rfl
  | cons y ys ih =>
    by_cases h : cmp x y < 0 <;> simp [insertCmp, h, ih]

lemma length_jsSortBy {cmp : α → α → Int} :
    ∀ (l : List α), (jsSortBy cmp l).length = l.length := by
  intro l
  induction l with
  | nil => rfl
  | cons y ys ih =>
    simp only [jsSortBy, List.foldr] at ih ⊢
    rw [length_insertCmp, ih, List.length_cons]

lemma length_assignReadingOrder (l : List Detection) :
    (assignReadingOrder l).length = l.length := by
  simp [assignReadingOrder]

lemma jsSortBy_eq_self {cmp : α → α → Int} :
    ∀ {l : List α}, List.Pairwise (fun a b => cmp a b < 0) l →
      jsSortBy cmp l = l := by
  intro l
  induction l with
  | nil => intro _; rfl
  | cons a rest ih =>
    intro h
    have hrest := ih (List.Pairwise.sublist (List.sublist_cons_self a rest) h)
    simp only [jsSortBy, List.foldr] at hrest ⊢
    rw [hrest]
    cases rest with
    | nil => rfl
    | cons b rs =>
      have hab : cmp a b < 0 := (List.pairwise_cons.mp h).1 b (List.mem_cons_self b rs)
      simp [insertCmp, hab]

/-- The reading-order values of a page's detections are exactly the
contiguous sequence `1..N` (claim C4 core). -/
lemma processPageDetections_map_ro (page : Nat) (W H sx sy : ℚ)
    (preds : List RawPred) :
    (processPageDetections page W H sx sy preds).map (fun d => d.reading_order) =
      List.range' 1 (processPageDetections page W H sx sy preds).length := by
  unfold processPageDetections
  rw [assignReadingOrder_map_ro, length_assignReadingOrder]

/-! ### Claim theorems C4 and C5 -/

/-- C4: after the Sequencer completes, the `readingOrder` values over a
page's surviving detections, read off in list order, are exactly the
contiguous sequence `1..N` where `N` is the number of surviving detections
on that page — no gaps and no repeats; the assignment happens positionally
on the fully sorted list (`assignReadingOrder` runs after `jsSortBy`
inside `processPageDetections`). -/
theorem c4_reading_order_contiguous (page : Nat) (W H sx sy : ℚ)
    (preds : List RawPred) :
    (processPageDetections page W H sx sy preds).map (fun d => d.reading_order) =
      List.range' 1 (processPageDetections page W H sx sy preds).length ∧
    processPageDetections page W H sx sy preds =
      assignReadingOrder (jsSortBy cmpReading (detectLoop page W H sx sy [] preds)) :=
  ⟨processPageDetections_map_ro page W H sx sy preds, rfl⟩

/-- C5: the Sequencer's comparator orders two detections on a page by
center-y when the centers differ by more than 20 pixels (the one higher on
the page, smaller y, first), and otherwise falls back to center-x
ascending, treating them as one visual row. -/
theorem c5_comparator (a b : Detection) :
    (20 < |a.center.2 - b.center.2| →
      (cmpReading a b < 0 ↔ a.center.2 - b.center.2 < 0)) ∧
    (¬ 20 < |a.center.2 - b.center.2| →
      cmpReading a b = a.center.1 - b.center.1 ∧
        (cmpReading a b < 0 ↔ a.center.1 < b.center.1)) := by
  simp only [cmpReading]
  constructor
  · intro h
    rw [if_pos h]
  · intro h
    rw [if_neg h]
    exact ⟨rfl, by omega⟩

/-- Witness for C5 at concrete detections: centers (0, 0) and (5, 100) are
on different rows, and the first precedes the second. -/
theorem c5_comparator_witness :
    cmpReading { (sampleContent 1 1 "a").det with center := (0, 0) }
        { (sampleContent 1 1 "a").det with center := (5, 100) } < 0 ↔
      ((0 : Int) - 100 < 0) := by
  have h := (c5_comparator
    { (sampleContent 1 1 "a").det with center := (0, 0) }
    { (sampleContent 1 1 "a").det with center := (5, 100) }).1 (by decide)
  simpa using h

end DocParser

namespace DocParser

/-! ### Helper lemmas about the normalizer's confidence filter -/

/-- A raw tuple survives the confidence gate (negation of the `continue`
condition at main.js line 379). -/
def keep (t : RawPred) : Bool := !decide (t.score < CONFIDENCE_THRESHOLD)

lemma detectLoop_filter (page : Nat) (W H sx sy : ℚ) :
    ∀ (preds : List RawPred) (acc : List Detection),
      detectLoop page W H sx sy acc (preds.filter keep) =
        detectLoop page W H sx sy acc preds := by
  intro preds
  induction preds with
  | nil => intro acc; rfl
  | cons t rest ih =>
    intro acc
    by_cases h : t.score < CONFIDENCE_THRESHOLD
    · have hk : keep t = false := by simp [keep, h]
      simp only [List.filter_cons, hk, if_neg Bool.false_ne_true, detectLoop, if_pos h]
      exact ih acc
    · have hk : keep t = true := by simp [keep, h]
      simp only [List.filter_cons, hk, if_pos rfl, detectLoop, if_neg h]
      exact ih _

lemma length_detectLoop (page : Nat) (W H sx sy : ℚ) :
    ∀ (preds : List RawPred) (acc : List Detection),
      (detectLoop page W H sx sy acc preds).length =
        acc.length + (preds.filter keep).length := by
  intro preds
  induction preds with
  | nil => intro acc; simp [detectLoop]
  | cons t rest ih =>
    intro acc
    by_cases h : t.score < CONFIDENCE_THRESHOLD
    · have hk : keep t = false := by simp [keep, h]
      simp only [detectLoop, if_pos h, List.filter_cons, hk,
        if_neg Bool.false_ne_true]
      exact ih acc
    · have hk : keep t = true := by simp [keep, h]
      simp only [detectLoop, if_neg h, List.filter_cons, hk, if_pos rfl,
        List.length_cons]
      rw [ih]
      simp
      omega

lemma mem_detectLoop {page : Nat} {W H sx sy : ℚ} :
    ∀ (preds : List RawPred) (acc : List Detection) (d : Detection),
      d ∈ detectLoop page W H sx sy acc preds →
        d ∈ acc ∨ ∃ t ∈ preds, ¬ t.score < CONFIDENCE_THRESHOLD ∧
          ∃ k, d = mkDetection page W H sx sy k t := by
  intro preds
  induction preds with
  | nil => intro acc d hd; exact Or.inl hd
  | cons t rest ih =>
    intro acc d hd
    by_cases h : t.score < CONFIDENCE_THRESHOLD
    · rw [detectLoop, if_pos h] at hd
      rcases ih acc d hd with hin | ⟨u, hu, hs, k, hk⟩
      · exact Or.inl hin
      · exact Or.inr ⟨u, List.mem_cons_of_mem t hu, hs, k, hk⟩
    · rw [detectLoop, if_neg h] at hd
      rcases ih _ d hd with hin | ⟨u, hu, hs, k, hk⟩
      · rcases List.mem_append.mp hin with hl | hr
        · exact Or.inl hl
        · refine Or.inr ⟨t, List.mem_cons_self t rest, h, acc.length, ?_⟩
          simpa using hr
      · exact Or.inr ⟨u, List.mem_cons_of_mem t hu, hs, k, hk⟩

lemma mem_enumFrom_snd :
    ∀ (l : List α) (n : Nat) (p : Nat × α), p ∈ List.enumFrom n l → p.2 ∈ l := by
  intro l
  induction l with
  | nil => intro n p hp; simp [List.enumFrom] at hp
  | cons x xs ih =>
    intro n p hp
    rcases List.mem_cons.mp hp with h | h
    · subst h; exact List.mem_cons_self x xs
    · exact List.mem_cons_of_mem x (ih (n + 1) p h)

lemma mem_assignReadingOrder {l : List Detection} {d : Detection} :
    d ∈ assignReadingOrder l →
      ∃ d0 ∈ l, ∃ r, d = { d0 with reading_order := r } := by
  intro hd
  rcases List.mem_map.mp hd with ⟨p, hp, hpd⟩
  exact ⟨p.2, mem_enumFrom_snd l 0 p hp, p.1 + 1, hpd.symm⟩

/-- Every detection in a page's final list is the reading-order-stamped
copy of a record built from a surviving raw tuple. -/
lemma mem_processPageDetections {page : Nat} {W H sx sy : ℚ}
    {preds : List RawPred} {d : Detection} :
    d ∈ processPageDetections page W H sx sy preds →
      ∃ t ∈ preds, ¬ t.score < CONFIDENCE_THRESHOLD ∧
        ∃ k r, d = { mkDetection page W H sx sy k t with reading_order := r } := by
  intro hd
  rcases mem_assignReadingOrder hd with ⟨d0, hd0, r, hdr⟩
  rcases mem_detectLoop _ _ _ (mem_jsSortBy.mp hd0) with h | ⟨t, ht, hs, k, hk⟩
  · simp at h
  · exact ⟨t, ht, hs, k, r, by rw [hdr, hk]⟩

end DocParser

namespace DocParser

/-! ### Claim theorems C3, C6, C7, C10 -/

/-- Raw tuple with degenerate geometry (`xmin = xmax`, so the scaled box
has zero width) but a passing score. -/
def degeneratePred : RawPred :=
  { xmin := 10, ymin := 10, xmax := 10, ymax := 50, score := 1, classId := 9, text := "x" }

/-- C3 counterexample: the code has no degenerate-geometry check.  A
zero-width detection (and likewise one on a page whose dimensions are
zero) survives the Normalizer and reaches the export's flat view, where
its width is 0 — the claim says it is dropped and never emitted. -/
theorem c3_counterexample :
    (processPageDetections 1 100 100 1 1 [degeneratePred]).length = 1 ∧
    (processPageDetections 1 100 100 1 1 [degeneratePred]).map (fun d => d.width) = [0] ∧
    (processPageDetections 1 0 0 1 1 [degeneratePred]).length = 1 ∧
    (runPipeline [⟨100, 100, 1, 1, [degeneratePred]⟩]).allDetections.length = 1 := by
  have hscore : ¬ (degeneratePred.score < CONFIDENCE_THRESHOLD) := by
    simp only [degeneratePred, CONFIDENCE_THRESHOLD]
    norm_num
  refine ⟨?_, ?_, ?_, ?_⟩
  · simp only [processPageDetections, detectLoop, if_neg hscore]
    rfl
  · simp only [processPageDetections, detectLoop, if_neg hscore]
    simp only [jsSortBy, List.foldr, insertCmp, assignReadingOrder, List.enum,
      List.enumFrom, List.map, List.nil_append, mkDetection, degeneratePred]
    norm_num [jsRound]
  · simp only [processPageDetections, detectLoop, if_neg hscore]
    rfl
  · simp only [runPipeline, runResults, saveBoundingBoxesToJson,
      buildDocumentHierarchy, allDetectionsOf, processPage, List.foldr]
    rw [jsSortBy_eq_self]
    · simp only [processPage, processPageDetections, detectLoop, if_neg hscore]
      rfl
    · simp only [processPage, processPageDetections, detectLoop, if_neg hscore]
      simp [jsSortBy, insertCmp, assignReadingOrder, List.enum, List.enumFrom]

/-- C3 amended: the Normalizer's only drop condition is the confidence
threshold — the number of surviving detections on a page equals the number
of raw tuples passing the score gate, irrespective of geometry or page
dimensions; degenerate-geometry detections are emitted downstream. -/
theorem c3_confidence_only_filter (page : Nat) (W H sx sy : ℚ)
    (preds : List RawPred) :
    (processPageDetections page W H sx sy preds).length =
      (preds.filter keep).length := by
  unfold processPageDetections
  rw [length_assignReadingOrder, length_jsSortBy, length_detectLoop]
  simp

end DocParser

namespace DocParser

lemma runResults_filter :
    ∀ (inputs : List PageInput) (n : Nat),
      runResults n (inputs.map fun inp => { inp with preds := inp.preds.filter keep }) =
        runResults n inputs := by
  intro inputs
  induction inputs with
  | nil => intro n; rfl
  | cons inp rest ih =>
    intro n
    have hd : processPageDetections n inp.imageWidth inp.imageHeight inp.sx inp.sy
        (inp.preds.filter keep) =
        processPageDetections n inp.imageWidth inp.imageHeight inp.sx inp.sy inp.preds := by
      unfold processPageDetections
      rw [detectLoop_filter]
    simp only [List.map, runResults, processPage, hd, ih]

/-- C6: only raw tuples whose score passes the confidence threshold survive
the Normalizer, and sub-threshold tuples leave no trace in any output view:
removing them from the input leaves the entire export artifact — the
hierarchy, the flat view, the per-page view and every suggestion list —
unchanged, and each page's detection list itself is unchanged. -/
theorem c6_threshold_filter :
    (∀ inputs : List PageInput,
      runPipeline (inputs.map fun inp => { inp with preds := inp.preds.filter keep }) =
        runPipeline inputs) ∧
    (∀ (page : Nat) (W H sx sy : ℚ) (preds : List RawPred),
      processPageDetections page W H sx sy (preds.filter keep) =
        processPageDetections page W H sx sy preds) := by
  constructor
  · intro inputs
    unfold runPipeline
    rw [runResults_filter]
  · intro page W H sx sy preds
    unfold processPageDetections
    rw [detectLoop_filter]

/-- C7: every surviving detection's normalized box is its pixel box divided
coordinatewise by the page width (x coordinates) or page height (y
coordinates), rounded to exactly 4 decimal places. -/
theorem c7_box_normalized (page : Nat) (W H sx sy : ℚ) (preds : List RawPred) :
    List.Forall
      (fun d => d.bbox_normalized =
        ⟨round4 ((d.bbox.x0 : ℚ) / W), round4 ((d.bbox.y0 : ℚ) / H),
         round4 ((d.bbox.x1 : ℚ) / W), round4 ((d.bbox.y1 : ℚ) / H)⟩)
      (processPageDetections page W H sx sy preds) := by
  rw [List.forall_iff_forall_mem]
  intro d hd
  rcases mem_processPageDetections hd with ⟨t, ht, hs, k, r, rfl⟩
  rfl

/-- C10: each surviving detection stores as its `confidence` the raw
detector score rounded to 3 decimal places, while the threshold comparison
happens on the unrounded raw score — witnessed by a raw score of 0.4999,
which rounds to 0.500 (at the threshold) yet is dropped. -/
theorem c10_confidence_rounding :
    (∀ (page : Nat) (W H sx sy : ℚ) (preds : List RawPred),
      List.Forall
        (fun d => ∃ t ∈ preds, ¬ t.score < CONFIDENCE_THRESHOLD ∧
          d.confidence = round3 t.score)
        (processPageDetections page W H sx sy preds)) ∧
    CONFIDENCE_THRESHOLD ≤ round3 ((4999 : ℚ) / 10000) ∧
    processPageDetections 1 100 100 1 1
      [{ xmin := 10, ymin := 10, xmax := 50, ymax := 50,
         score := 4999 / 10000, classId := 9, text := "x" }] = [] := by
  refine ⟨?_, ?_, ?_⟩
  · intro page W H sx sy preds
    rw [List.forall_iff_forall_mem]
    intro d hd
    rcases mem_processPageDetections hd with ⟨t, ht, hs, k, r, rfl⟩
    exact ⟨t, ht, hs, rfl⟩
  · norm_num [round3, jsRound, CONFIDENCE_THRESHOLD]
  · have h : ((4999 : ℚ) / 10000) < CONFIDENCE_THRESHOLD := by
      norm_num [CONFIDENCE_THRESHOLD]
    simp only [processPageDetections, detectLoop, if_pos h]
    rfl

end DocParser

namespace DocParser

/-! ### Helper lemmas about the hierarchy builder's stack -/

/-- The stack's heading-rank sequence, head (= stack top) first. -/
def stackLevels (st : List Node) : List Nat :=
  st.map fun nd => levelNum (nodeLevel nd)

lemma nodeLevel_pushChild (p n : Node) : nodeLevel (pushChild p n) = nodeLevel p := by
  cases p <;> rfl

lemma dropWhile_head_false {p : α → Bool} :
    ∀ (l : List α) (x : α) (rs : List α), l.dropWhile p = x :: rs → p x = false := by
  intro l
  induction l with
  | nil => intro x rs h; simp [List.dropWhile] at h
  | cons y ys ih =>
    intro x rs h
    by_cases hy : p y = true
    · rw [List.dropWhile_cons, if_pos hy] at h
      exact ih x rs h
    · rw [List.dropWhile_cons, if_neg hy] at h
      cases h
      simpa using hy

lemma pairwise_dropWhile {R : α → α → Prop} {p : α → Bool} :
    ∀ {l : List α}, List.Pairwise R l → List.Pairwise R (l.dropWhile p) := by
  intro l
  induction l with
  | nil => intro h; exact h
  | cons y ys ih =>
    intro h
    by_cases hy : p y = true
    · rw [List.dropWhile_cons, if_pos hy]
      exact ih (List.pairwise_cons.mp h).2
    · rwa [List.dropWhile_cons, if_neg hy]

/-- After the pop loop, the remaining stack's rank sequence is that of the
un-popped suffix (attaching a child does not change a node's level). -/
lemma stackLevels_popWhile (lvl : Nat) (forest stack : List Node) :
    stackLevels (popWhile lvl forest stack).2 =
      stackLevels (stack.dropWhile fun nd => lvl ≤ levelNum (nodeLevel nd)) := by
  unfold popWhile
  rcases hT : stack.takeWhile (fun nd => decide (lvl ≤ levelNum (nodeLevel nd))) with _ | ⟨t, ds⟩
  · simp only [hT]
    have hsplit := List.takeWhile_append_dropWhile
      (p := fun nd => decide (lvl ≤ levelNum (nodeLevel nd))) (l := stack)
    rw [hT, List.nil_append] at hsplit
    rw [hsplit]
  · rcases hK : stack.dropWhile (fun nd => decide (lvl ≤ levelNum (nodeLevel nd))) with _ | ⟨p, rs⟩
    · simp only [hT, hK]
    · simp only [hT, hK, stackLevels, List.map, nodeLevel_pushChild]

/-- Every rank on the stack left by the pop loop is strictly below the
incoming level, provided the stack was strictly ordered. -/
lemma popWhile_levels_lt (lvl : Nat) :
    ∀ (stack : List Node),
      List.Pairwise (fun x y => y < x) (stackLevels stack) →
      ∀ v ∈ stackLevels (stack.dropWhile fun nd => lvl ≤ levelNum (nodeLevel nd)),
        v < lvl := by
  intro stack
  induction stack with
  | nil => intro _ v hv; simp [stackLevels] at hv
  | cons x xs ih =>
    intro h v hv
    have hh : List.Pairwise (fun a b => b < a)
        (levelNum (nodeLevel x) :: stackLevels xs) := by
      simpa only [stackLevels, List.map] using h
    have hdec := List.pairwise_cons.mp hh
    by_cases hx : lvl ≤ levelNum (nodeLevel x)
    · rw [List.dropWhile_cons, if_pos (by simpa using hx)] at hv
      exact ih hdec.2 v hv
    · rw [List.dropWhile_cons, if_neg (by simpa using hx)] at hv
      have hv' : v = levelNum (nodeLevel x) ∨ v ∈ stackLevels xs := by
        simpa only [stackLevels, List.map, List.mem_cons] using hv
      rcases hv' with rfl | hv'
      · omega
      · have hlt := hdec.1 v hv'
        omega

/-- One builder step preserves strict ordering of the stack ranks (top
strictly greatest). -/
lemma stepDet_stack_ordered (st : List Node × List Node) (e : EnrichedDetection)
    (h : List.Pairwise (fun x y => y < x) (stackLevels st.2)) :
    List.Pairwise (fun x y => y < x) (stackLevels (stepDet st e).2) := by
  unfold stepDet
  rcases hl : headingLevels e.det.label with _ | lvl
  · rcases hst : st.2 with _ | ⟨top, rest⟩
    · simp [stackLevels, mkDefaultSection]
    · rw [hst] at h
      simpa [stackLevels, nodeLevel_pushChild] using h
  · simp only [hl]
    have h' : List.Pairwise
        (fun a b => levelNum (nodeLevel b) < levelNum (nodeLevel a)) st.2 := by
      rw [stackLevels] at h
      rwa [List.pairwise_map] at h
    have htail : List.Pairwise (fun x y => y < x)
        (stackLevels (popWhile (levelNum lvl) st.1 st.2).2) := by
      rw [stackLevels_popWhile, stackLevels, List.pairwise_map]
      exact pairwise_dropWhile h'
    have hcons : stackLevels (mkHeadingNode e lvl :: (popWhile (levelNum lvl) st.1 st.2).2) =
        levelNum lvl :: stackLevels (popWhile (levelNum lvl) st.1 st.2).2 := rfl
    rw [hcons]
    refine List.pairwise_cons.mpr ⟨?_, htail⟩
    intro v hv
    rw [stackLevels_popWhile] at hv
    exact popWhile_levels_lt (levelNum lvl) st.2 h v hv

end DocParser

namespace DocParser

lemma foldl_stepDet_ordered :
    ∀ (dets : List EnrichedDetection) (st : List Node × List Node),
      List.Pairwise (fun x y => y < x) (stackLevels st.2) →
      List.Pairwise (fun x y => y < x) (stackLevels ((dets.foldl stepDet st).2)) := by
  intro dets
  induction dets with
  | nil => intro st h; exact h
  | cons e rest ih => intro st h; exact ih _ (stepDet_stack_ordered st e h)

/-- Sample enriched Section-header detection used in concrete scenarios. -/
def sampleHeading (page ro : Nat) (text : String) : EnrichedDetection :=
  { det :=
    { id := "page" ++ toString page ++ "_detection" ++ toString ro
      bbox := ⟨10, 10, 100, 30⟩
      bbox_normalized := ⟨0, 0, 1, 1⟩
      label := "Section-header"
      confidence := 1
      area := 1800
      center := (55, 20)
      width := 90
      height := 20
      extractedText := text
      reading_order := ro }
    pageNumber := page
    pageWidth := 100
    pageHeight := 100 }

/-! ### Claim theorem C2 -/

/-- C2: the Hierarchy Builder keeps the heading stack strictly ordered —
after any prefix of the ordered detection sequence, the stack's level
sequence read from bottom to top is strictly increasing — and in the
two-same-level-headings scenario (`H2`, content, `H2`) the second
Section-header ends up a sibling of the first, not nested under it. -/
theorem c2_stack_invariant :
    (∀ (dets : List EnrichedDetection) (n : Nat),
      List.Pairwise (· < ·)
        ((stackLevels (((dets.take n).foldl stepDet ([], [])).2)).reverse)) ∧
    buildForestOrdered
        [sampleHeading 1 1 "A", sampleContent 1 2 "body", sampleHeading 1 3 "B"] =
      [Node.heading "page1_detection1" "A" "H2" 1 ⟨10, 10, 100, 30⟩ ⟨0, 0, 1, 1⟩ 1
          [mkContentNode (sampleContent 1 2 "body")],
       Node.heading "page1_detection3" "B" "H2" 1 ⟨10, 10, 100, 30⟩ ⟨0, 0, 1, 1⟩ 1 []] := by
  constructor
  · intro dets n
    rw [List.pairwise_reverse]
    exact foldl_stepDet_ordered (dets.take n) ([], []) (by simp [stackLevels])
  · rfl

/-! ### Claim theorems C1 (counterexample and amended) -/

/-- C1 counterexample: orphan content on page 1 followed by orphan content
on page 2, with no heading anywhere.  The claim demands a fresh default
section for page 2; the code instead leaves page 1's default section on the
stack, so the hierarchy has exactly ONE top-level section — page 1's — and
the page-2 content node sits inside it. -/
theorem c1_counterexample :
    (buildDocumentHierarchy [sampleContent 1 1 "a", sampleContent 2 1 "b"]).1.length = 1 ∧
    (buildDocumentHierarchy [sampleContent 1 1 "a", sampleContent 2 1 "b"]).1 =
      [Node.defaultSection "default_section_page_1" "Content (Page 1)" "H1" 1
        [mkContentNode (sampleContent 1 1 "a"), mkContentNode (sampleContent 2 1 "b")]] :=
  ⟨rfl, rfl⟩

lemma foldl_content_only :
    ∀ (rest : List EnrichedDetection) (f : List Node) (i t l : String)
      (pg : Nat) (ch : List Node),
      (∀ x ∈ rest, headingLevels x.det.label = none) →
      rest.foldl stepDet (f, [Node.defaultSection i t l pg ch]) =
        (f, [Node.defaultSection i t l pg (ch ++ rest.map mkContentNode)]) := by
  intro rest
  induction rest with
  | nil => intro f i t l pg ch _; simp
  | cons x xs ih =>
    intro f i t l pg ch hall
    have hx := hall x (List.mem_cons_self x xs)
    rw [List.foldl_cons]
    have hstep : stepDet (f, [Node.defaultSection i t l pg ch]) x =
        (f, [Node.defaultSection i t l pg (ch ++ [mkContentNode x])]) := by
      unfold stepDet
      rw [hx]
      rfl
    rw [hstep, ih f i t l pg (ch ++ [mkContentNode x])
      (fun y hy => hall y (List.mem_cons_of_mem x hy))]
    simp

/-- C1 amended: for a nonempty ordered sequence of content-only detections
(no heading label anywhere), exactly one default section is synthesized —
scoped to the FIRST detection's page — and every content node of the run,
later pages included, is attached to that single section in order; a page
change does not create a fresh default section while one is on the stack. -/
theorem c1_default_section_amended (e : EnrichedDetection)
    (rest : List EnrichedDetection)
    (he : headingLevels e.det.label = none)
    (hrest : ∀ x ∈ rest, headingLevels x.det.label = none) :
    buildForestOrdered (e :: rest) =
      [Node.defaultSection ("default_section_page_" ++ toString e.pageNumber)
        ("Content (Page " ++ toString e.pageNumber ++ ")") "H1" e.pageNumber
        (mkContentNode e :: rest.map mkContentNode)] := by
  unfold buildForestOrdered
  rw [List.foldl_cons]
  have hstep : stepDet ([], []) e =
      ([], [Node.defaultSection ("default_section_page_" ++ toString e.pageNumber)
        ("Content (Page " ++ toString e.pageNumber ++ ")") "H1" e.pageNumber
        [mkContentNode e]]) := by
    unfold stepDet
    rw [he]
    rfl
  rw [hstep, foldl_content_only rest [] _ _ _ _ _ hrest]
  rfl

/-- Witness for the amended C1 at a concrete two-page orphan-content run. -/
theorem c1_default_section_amended_witness :
    buildForestOrdered [sampleContent 1 1 "a", sampleContent 2 1 "b"] =
      [Node.defaultSection ("default_section_page_" ++ toString (1 : Nat))
        ("Content (Page " ++ toString (1 : Nat) ++ ")") "H1" 1
        (mkContentNode (sampleContent 1 1 "a") ::
          [sampleContent 2 1 "b"].map mkContentNode)] :=
  c1_default_section_amended (sampleContent 1 1 "a") [sampleContent 2 1 "b"]
    (by decide) (by decide)

end DocParser

namespace DocParser

/-! ### Claim theorems C8 (counterexample and amended) -/

/-- C8 counterexample: the OCR collaborator's reserved placeholder
`"[Text content - OCR not available]"` (the exact string
`extractTextFromRegion` returns when OCR is unavailable) is non-empty, so
`extractedText || fallback` keeps it: the hierarchy displays the
placeholder itself, not the label/page fallback `"Text content (Page 1)"`
the claim requires for placeholder-matching strings. -/
theorem c8_counterexample :
    buildForestOrdered [sampleContent 1 1 "[Text content - OCR not available]"] =
      [Node.defaultSection "default_section_page_1" "Content (Page 1)" "H1" 1
        [Node.content "page1_detection1" "text" "[Text content - OCR not available]"
          ⟨10, 10, 100, 30⟩ ⟨0, 0, 1, 1⟩ 1 1 90 20 1800 1]] ∧
    ("[Text content - OCR not available]" : String) ≠ "Text content (Page 1)" :=
  ⟨rfl, by decide⟩

/-- C8 amended: the displayed text of a node (a heading's `title`, a
content node's `content`) is the detection's `extractedText` whenever that
string is non-empty — reserved placeholder strings included — and the
label/page fallback is used exactly when `extractedText` is the empty
string. -/
theorem c8_fallback_amended (e : EnrichedDetection) :
    (∀ lvl, headingLevels e.det.label = some lvl →
      buildForestOrdered [e] =
        [Node.heading e.det.id
          (if e.det.extractedText = "" then
             e.det.label ++ " (Page " ++ toString e.pageNumber ++ ")"
           else e.det.extractedText)
          lvl e.pageNumber e.det.bbox e.det.bbox_normalized e.det.confidence []]) ∧
    (headingLevels e.det.label = none →
      buildForestOrdered [e] =
        [Node.defaultSection ("default_section_page_" ++ toString e.pageNumber)
          ("Content (Page " ++ toString e.pageNumber ++ ")") "H1" e.pageNumber
          [Node.content e.det.id (contentTypeOf e.det.label)
            (if e.det.extractedText = "" then
               e.det.label ++ " content (Page " ++ toString e.pageNumber ++ ")"
             else e.det.extractedText)
            e.det.bbox e.det.bbox_normalized e.pageNumber e.det.confidence
            e.det.width e.det.height e.det.area e.det.reading_order]]) := by
  constructor
  · intro lvl hl
    unfold buildForestOrdered
    rw [List.foldl_cons]
    show flushStack (stepDet ([], []) e).1 (stepDet ([], []) e).2 = _
    unfold stepDet
    rw [hl]
    rfl
  · intro hl
    unfold buildForestOrdered
    rw [List.foldl_cons]
    show flushStack (stepDet ([], []) e).1 (stepDet ([], []) e).2 = _
    unfold stepDet
    rw [hl]
    rfl

/-- Witness for the amended C8: a heading whose OCR text is empty gets the
fallback title, and a content detection carrying a placeholder string keeps
the placeholder verbatim. -/
theorem c8_fallback_amended_witness :
    buildForestOrdered [sampleHeading 1 1 ""] =
      [Node.heading "page1_detection1" "Section-header (Page 1)" "H2" 1
        ⟨10, 10, 100, 30⟩ ⟨0, 0, 1, 1⟩ 1 []] ∧
    buildForestOrdered [sampleContent 1 1 "[Text - OCR error]"] =
      [Node.defaultSection "default_section_page_1" "Content (Page 1)" "H1" 1
        [Node.content "page1_detection1" "text" "[Text - OCR error]"
          ⟨10, 10, 100, 30⟩ ⟨0, 0, 1, 1⟩ 1 1 90 20 1800 1]] :=
  ⟨(c8_fallback_amended (sampleHeading 1 1 "")).1 "H2" (by decide),
   (c8_fallback_amended (sampleContent 1 1 "[Text - OCR error]")).2 (by decide)⟩

end DocParser

namespace DocParser

/-! ### Helper lemmas for C9: the flat list is already in document order -/

lemma pairwise_reading_order (page : Nat) (W H sx sy : ℚ) (preds : List RawPred) :
    List.Pairwise (fun a b => a.reading_order < b.reading_order)
      (processPageDetections page W H sx sy preds) := by
  have hmap := processPageDetections_map_ro page W H sx sy preds
  have hpw : List.Pairwise (· < ·)
      ((processPageDetections page W H sx sy preds).map fun d => d.reading_order) := by
    rw [hmap]
    exact List.pairwise_lt_range' 1 _
  rwa [List.pairwise_map] at hpw

lemma mem_allDetectionsOf_pageNumber :
    ∀ (inputs : List PageInput) (n : Nat) (e : EnrichedDetection),
      e ∈ allDetectionsOf (runResults n inputs) → n ≤ e.pageNumber := by
  intro inputs
  induction inputs with
  | nil => intro n e he; simp [runResults, allDetectionsOf] at he
  | cons inp rest ih =>
    intro n e he
    have he' : e ∈ (processPage n inp).detections.map (enrich (processPage n inp)) ∨
        e ∈ allDetectionsOf (runResults (n + 1) rest) := by
      simpa [runResults, allDetectionsOf] using he
    rcases he' with he' | he'
    · rcases List.mem_map.mp he' with ⟨d, _, rfl⟩
      simp [enrich, processPage]
    · have := ih (n + 1) e he'
      omega

lemma pairwise_allDetectionsOf :
    ∀ (inputs : List PageInput) (n : Nat),
      List.Pairwise (fun a b => hierCmp a b < 0)
        (allDetectionsOf (runResults n inputs)) := by
  intro inputs
  induction inputs with
  | nil => intro n; simp [runResults, allDetectionsOf]
  | cons inp rest ih =>
    intro n
    have hsplit : allDetectionsOf (runResults n (inp :: rest)) =
        (processPage n inp).detections.map (enrich (processPage n inp)) ++
          allDetectionsOf (runResults (n + 1) rest) := rfl
    rw [hsplit, List.pairwise_append]
    refine ⟨?_, ih (n + 1), ?_⟩
    · rw [List.pairwise_map]
      have hro := pairwise_reading_order n inp.imageWidth inp.imageHeight inp.sx inp.sy inp.preds
      refine hro.imp ?_
      intro a b hab
      simp only [hierCmp, enrich, processPage, ne_eq, not_true_eq_false, if_neg, if_false]
      omega
    · intro a ha b hb
      rcases List.mem_map.mp ha with ⟨d, _, rfl⟩
      have hpb : n + 1 ≤ b.pageNumber := mem_allDetectionsOf_pageNumber rest (n + 1) b hb
      have hpa : (enrich (processPage n inp) d).pageNumber = n := rfl
      simp only [hierCmp, hpa]
      rw [if_pos (by omega)]
      have : (n : Int) < (b.pageNumber : Int) := by exact_mod_cast (by omega : n < b.pageNumber)
      omega

/-! ### Claim theorem C9 -/

/-- C9: the Hierarchy Builder and Export Assembler consume the finalized
detection list read-only.  The only mutation the JS code performs on it —
`detections.sort(...)` inside `buildDocumentHierarchy` — is the identity on
the pipeline's flat list, which is already strictly ordered by
`(pageNumber, readingOrder)`: the exported flat view equals the list as
originally assembled, element order and records unchanged, and the builder
returns that unchanged list alongside the forest. -/
theorem c9_read_only (inputs : List PageInput) :
    (runPipeline inputs).allDetections = allDetectionsOf (runResults 1 inputs) ∧
    buildDocumentHierarchy (allDetectionsOf (runResults 1 inputs)) =
      (buildForestOrdered (allDetectionsOf (runResults 1 inputs)),
       allDetectionsOf (runResults 1 inputs)) := by
  have hfix : jsSortBy hierCmp (allDetectionsOf (runResults 1 inputs)) =
      allDetectionsOf (runResults 1 inputs) :=
    jsSortBy_eq_self (pairwise_allDetectionsOf inputs 1)
  constructor
  · show (buildDocumentHierarchy (allDetectionsOf (runResults 1 inputs))).2 = _
    simp only [buildDocumentHierarchy]
    exact hfix
  · simp only [buildDocumentHierarchy, hfix]

end DocParser
